import Mathlib

/-!
Shallow embedding of the rope simulator
(src/python/taichi/examples/simulation/rope_simulator.py).

The program is a 2-D mass-spring chain: global fields positions,
velocities, forces, inv_mass over n_particles particles, a force pass
(compute_forces: clear, gravity, then spring and damping per segment),
a semi-implicit Euler pass (integrate), and a main loop running 10
substeps per unpaused frame.

Machine floats (ti.f32) are embedded as real numbers; 2-D vectors as
pairs of reals.  The kernels become state-transforming functions on a
record of the four fields; the per-segment loop becomes a fold over
List.range n_segments, faithful to the sequential read-then-accumulate
semantics of the source.  Simulation constants are gathered in a record
so that the scenarios the spec describes (different particle counts,
zero gravity) can be expressed; the source values are ropeConsts.
-/

noncomputable section

/-- Dot product of two 2-D vectors, as computed inside ti.Vector.norm
and ti.Vector.dot. -/
def vdot (a b : ℝ × ℝ) : ℝ := a.1 * b.1 + a.2 * b.2

/-- Euclidean norm of a 2-D vector, the source expression
dist_vec.norm(). -/
def vnorm (a : ℝ × ℝ) : ℝ := Real.sqrt (vdot a a)

/-- The global simulation parameters of the source
(n_particles, particle_mass, stiffness, damping, rest_length, gravity,
dt), gathered into one record. -/
structure SimConsts where
  nParticles : ℕ
  particleMass : ℝ
  stiffness : ℝ
  damping : ℝ
  restLength : ℝ
  gravity : ℝ × ℝ
  dt : ℝ

/-- The source constant values: n_particles = 15, particle_mass = 1.0,
stiffness = 10000.0, damping = 0.5, rest_length = 0.1,
gravity = (0, -9.81), dt = 0.0005. -/
def ropeConsts : SimConsts where
  nParticles := 15
  particleMass := 1
  stiffness := 10000
  damping := 1 / 2
  restLength := 1 / 10
  gravity := (0, -981 / 100)
  dt := 1 / 2000

/-- The four global taichi fields of the source: positions, velocities,
forces, inv_mass, each indexed by particle number. -/
@[ext]
structure SimState where
  positions : ℕ → ℝ × ℝ
  velocities : ℕ → ℝ × ℝ
  forces : ℕ → ℝ × ℝ
  invMass : ℕ → ℝ

/-- Taichi fields are zero-initialized before any kernel runs. -/
def init0 : SimState where
  positions := fun _ => 0
  velocities := fun _ => 0
  forces := fun _ => 0
  invMass := fun _ => 0

/-- The hard-coded start_pos = ti.Vector([0.1, 0.8]) of
initialize_particles. -/
def startPos : ℝ × ℝ := (1 / 10, 4 / 5)

/-- The kernel initialize_particles: for i in range(n_particles),
positions[i] = start_pos + (i * rest_length, 0), velocities[i] = 0,
inv_mass[i] = 0 for i = 0 and 1 / particle_mass otherwise.  The forces
field is not written by this kernel. -/
def initializeParticles (c : SimConsts) (s : SimState) : SimState where
  positions := fun i =>
    if i < c.nParticles then startPos + ((i : ℝ) * c.restLength, 0)
    else s.positions i
  velocities := fun i => if i < c.nParticles then 0 else s.velocities i
  forces := s.forces
  invMass := fun i =>
    if i < c.nParticles then (if i = 0 then 0 else 1 / c.particleMass)
    else s.invMass i

/-- The state right after program start-up: zero-initialized fields
followed by the initialize_particles kernel. -/
def initialState (c : SimConsts) : SimState := initializeParticles c init0

/-- First loop of compute_forces: forces[i] = (0, 0) for every
i < n_particles. -/
def clearForces (c : SimConsts) (s : SimState) : SimState :=
  { s with forces := fun i => if i < c.nParticles then 0 else s.forces i }

/-- Second loop of compute_forces: forces[i] += gravity * particle_mass
for every i < n_particles with inv_mass[i] > 0. -/
def addGravity (c : SimConsts) (s : SimState) : SimState :=
  { s with forces := fun i =>
      if i < c.nParticles ∧ 0 < s.invMass i
      then s.forces i + c.particleMass • c.gravity
      else s.forces i }

/-- The spring force vector of segment (i, i+1):
spring_force_magnitude * direction_vec, where direction_vec is
dist_vec / current_length and spring_force_magnitude is
stiffness * (current_length - rest_length).  Meaningful under the
guard current_length > 1e-6. -/
def segSpringVec (c : SimConsts) (st : SimState) (i : ℕ) : ℝ × ℝ :=
  (c.stiffness * (vnorm (st.positions (i + 1) - st.positions i) - c.restLength)) •
    ((1 / vnorm (st.positions (i + 1) - st.positions i)) •
      (st.positions (i + 1) - st.positions i))

/-- The damping force vector of segment (i, i+1):
damping_force_magnitude * direction_vec, where the magnitude is
damping * (relative_velocity . direction_vec) with relative_velocity
= velocities[i+1] - velocities[i].  Meaningful under the guard
current_length > 1e-6. -/
def segDampVec (c : SimConsts) (st : SimState) (i : ℕ) : ℝ × ℝ :=
  (c.damping * vdot (st.velocities (i + 1) - st.velocities i)
      ((1 / vnorm (st.positions (i + 1) - st.positions i)) •
        (st.positions (i + 1) - st.positions i))) •
    ((1 / vnorm (st.positions (i + 1) - st.positions i)) •
      (st.positions (i + 1) - st.positions i))

/-- One iteration of the segment loop of compute_forces, for segment
(i, i+1): if current_length > 1e-6, forces[i] gains the spring vector
and the damping vector and forces[i+1] loses both; otherwise the
segment is skipped. -/
def applySegment (c : SimConsts) (st : SimState) (i : ℕ) : SimState :=
  if vnorm (st.positions (i + 1) - st.positions i) > 1 / 1000000 then
    { st with forces := fun k =>
        if k = i then st.forces k + segSpringVec c st i + segDampVec c st i
        else if k = i + 1 then st.forces k - segSpringVec c st i - segDampVec c st i
        else st.forces k }
  else st

/-- The kernel compute_forces: clear all forces, add gravity to the
non-fixed particles, then run the segment loop over
range(n_segments) with n_segments = n_particles - 1. -/
def computeForces (c : SimConsts) (s : SimState) : SimState :=
  (List.range (c.nParticles - 1)).foldl (applySegment c)
    (addGravity c (clearForces c s))

/-- The kernel integrate: for every i < n_particles with
inv_mass[i] > 0, velocities[i] += (forces[i] * inv_mass[i]) * dt and
then positions[i] += velocities[i] * dt, the position update reading
the freshly written velocity. -/
def integrate (c : SimConsts) (s : SimState) : SimState where
  positions := fun i =>
    if i < c.nParticles ∧ 0 < s.invMass i
    then s.positions i + c.dt • (s.velocities i + c.dt • (s.invMass i • s.forces i))
    else s.positions i
  velocities := fun i =>
    if i < c.nParticles ∧ 0 < s.invMass i
    then s.velocities i + c.dt • (s.invMass i • s.forces i)
    else s.velocities i
  forces := s.forces
  invMass := s.invMass

/-- One substep of the main loop: compute_forces() then integrate(). -/
def substep (c : SimConsts) (s : SimState) : SimState :=
  integrate c (computeForces c s)

/-- One frame of the main loop, physics part: if not paused, run 10
substeps (for _ in range(10): compute_forces(); integrate()); if
paused, do nothing. -/
def frame (c : SimConsts) (paused : Bool) (s : SimState) : SimState :=
  if paused then s
  else (List.range 10).foldl (fun t _ => substep c t) s

/-- Combined spring-plus-damping contribution of segment (i, i+1) as
accumulated on its left endpoint, including the degenerate-length
guard: zero when current_length is not above 1e-6. -/
def segDelta (c : SimConsts) (st : SimState) (i : ℕ) : ℝ × ℝ :=
  if vnorm (st.positions (i + 1) - st.positions i) > 1 / 1000000 then
    segSpringVec c st i + segDampVec c st i
  else 0

/-- A small concrete two-particle configuration used for concrete
evaluation: unit stiffness and rest length, no damping, no gravity,
unit mass and time step. -/
def cexC : SimConsts where
  nParticles := 2
  particleMass := 1
  stiffness := 1
  damping := 0
  restLength := 1
  gravity := (0, 0)
  dt := 1

/-- Concrete state for cexC: particle 0 pinned at the origin, particle
1 at (2, 0), so the single segment is stretched to length 2; all
velocities and accumulated forces zero. -/
def cexS : SimState where
  positions := fun i => if i = 0 then (0, 0) else (2, 0)
  velocities := fun _ => (0, 0)
  forces := fun _ => (0, 0)
  invMass := fun i => if i = 0 then 0 else 1

/-- Concrete state with the two particles of cexC exactly coincident
at the origin: the segment has length 0. -/
def coincS : SimState where
  positions := fun _ => (0, 0)
  velocities := fun _ => (0, 0)
  forces := fun _ => (0, 0)
  invMass := fun i => if i = 0 then 0 else 1

/-- The constants of the rest-length-equilibrium scenario: two
particles, zero gravity, the remaining values as in the source. -/
def eqConsts : SimConsts where
  nParticles := 2
  particleMass := 1
  stiffness := 10000
  damping := 1 / 2
  restLength := 1 / 10
  gravity := (0, 0)
  dt := 1 / 2000

/-! Structural lemmas about the passes. -/

theorem applySegment_positions (c : SimConsts) (st : SimState) (i : ℕ) :
    (applySegment c st i).positions = st.positions := by
  unfold applySegment; split <;> rfl

theorem applySegment_velocities (c : SimConsts) (st : SimState) (i : ℕ) :
    (applySegment c st i).velocities = st.velocities := by
  unfold applySegment; split <;> rfl

theorem applySegment_invMass (c : SimConsts) (st : SimState) (i : ℕ) :
    (applySegment c st i).invMass = st.invMass := by
  unfold applySegment; split <;> rfl

theorem applySegment_forces (c : SimConsts) (st : SimState) (i j : ℕ) :
    (applySegment c st i).forces j =
      st.forces j + (if j = i then segDelta c st i else 0)
        - (if j = i + 1 then segDelta c st i else 0) := by
  unfold applySegment segDelta
  by_cases hL : vnorm (st.positions (i + 1) - st.positions i) > 1 / 1000000
  · rw [if_pos hL, if_pos hL]
    dsimp only
    rcases eq_or_ne j i with hji | hji
    · rw [if_pos hji, if_pos hji, if_neg (show ¬j = i + 1 from by omega)]
      abel
    · rw [if_neg hji, if_neg hji]
      rcases eq_or_ne j (i + 1) with hji1 | hji1
      · rw [if_pos hji1, if_pos hji1]
        abel
      · rw [if_neg hji1, if_neg hji1]
        abel
  · rw [if_neg hL, if_neg hL]
    simp

theorem foldl_applySegment_positions (c : SimConsts) (l : List ℕ) (t : SimState) :
    (l.foldl (applySegment c) t).positions = t.positions := by
  induction l generalizing t with
  | nil => rfl
  | cons a l ih => rw [List.foldl_cons, ih, applySegment_positions]

theorem foldl_applySegment_velocities (c : SimConsts) (l : List ℕ) (t : SimState) :
    (l.foldl (applySegment c) t).velocities = t.velocities := by
  induction l generalizing t with
  | nil => rfl
  | cons a l ih => rw [List.foldl_cons, ih, applySegment_velocities]

theorem foldl_applySegment_invMass (c : SimConsts) (l : List ℕ) (t : SimState) :
    (l.foldl (applySegment c) t).invMass = t.invMass := by
  induction l generalizing t with
  | nil => rfl
  | cons a l ih => rw [List.foldl_cons, ih, applySegment_invMass]

theorem segSpringVec_eq_of (c : SimConsts) (s t : SimState) (i : ℕ)
    (hp : t.positions = s.positions) :
    segSpringVec c t i = segSpringVec c s i := by
  unfold segSpringVec; rw [hp]

theorem segDampVec_eq_of (c : SimConsts) (s t : SimState) (i : ℕ)
    (hp : t.positions = s.positions) (hv : t.velocities = s.velocities) :
    segDampVec c t i = segDampVec c s i := by
  unfold segDampVec; rw [hp, hv]

theorem segDelta_eq_of (c : SimConsts) (s t : SimState) (i : ℕ)
    (hp : t.positions = s.positions) (hv : t.velocities = s.velocities) :
    segDelta c t i = segDelta c s i := by
  unfold segDelta
  rw [hp, segSpringVec_eq_of c s t i hp, segDampVec_eq_of c s t i hp hv]

/-- Closed form of the segment loop: after folding segments
0, ..., m-1 over a start state t, the accumulator of particle j has
gained the contribution of segment j (if it was processed) and lost
the contribution of segment j - 1 (if j is its right endpoint and it
was processed). -/
theorem foldl_applySegment_forces (c : SimConsts) (t : SimState) (m j : ℕ) :
    ((List.range m).foldl (applySegment c) t).forces j =
      t.forces j + (if j < m then segDelta c t j else 0)
        - (if 1 ≤ j ∧ j - 1 < m then segDelta c t (j - 1) else 0) := by
  induction m with
  | zero => simp
  | succ m ih =>
      rw [List.range_succ, List.foldl_append, List.foldl_cons, List.foldl_nil,
        applySegment_forces, ih]
      rw [segDelta_eq_of c t ((List.range m).foldl (applySegment c) t) m
        (foldl_applySegment_positions c _ t) (foldl_applySegment_velocities c _ t)]
      by_cases h1 : j < m
      · rw [if_pos h1, if_pos (show j < m + 1 from by omega),
          if_neg (show ¬j = m from by omega), if_neg (show ¬j = m + 1 from by omega)]
        by_cases h2 : 1 ≤ j
        · rw [if_pos (show 1 ≤ j ∧ j - 1 < m from by omega),
            if_pos (show 1 ≤ j ∧ j - 1 < m + 1 from by omega)]
          abel
        · rw [if_neg (show ¬(1 ≤ j ∧ j - 1 < m) from by omega),
            if_neg (show ¬(1 ≤ j ∧ j - 1 < m + 1) from by omega)]
          abel
      · rcases eq_or_ne j m with hjm | hjm
        · rw [hjm]
          rw [if_neg (show ¬m < m from by omega), if_pos (show m < m + 1 from by omega),
            if_pos rfl, if_neg (show ¬m = m + 1 from by omega)]
          by_cases h2 : 1 ≤ m
          · rw [if_pos (show 1 ≤ m ∧ m - 1 < m from by omega),
              if_pos (show 1 ≤ m ∧ m - 1 < m + 1 from by omega)]
            abel
          · rw [if_neg (show ¬(1 ≤ m ∧ m - 1 < m) from by omega),
              if_neg (show ¬(1 ≤ m ∧ m - 1 < m + 1) from by omega)]
            abel
        · rcases eq_or_ne j (m + 1) with hjm1 | hjm1
          · rw [hjm1]
            rw [if_neg (show ¬m + 1 < m from by omega),
              if_neg (show ¬m + 1 < m + 1 from by omega),
              if_neg (show ¬m + 1 = m from by omega), if_pos rfl,
              if_neg (show ¬(1 ≤ m + 1 ∧ m + 1 - 1 < m) from by omega),
              if_pos (show 1 ≤ m + 1 ∧ m + 1 - 1 < m + 1 from by omega)]
            simp only [Nat.add_sub_cancel]
            abel
          · rw [if_neg h1, if_neg (show ¬j < m + 1 from by omega), if_neg hjm,
              if_neg hjm1]
            by_cases h2 : 1 ≤ j ∧ j - 1 < m
            · rw [if_pos h2, if_pos (show 1 ≤ j ∧ j - 1 < m + 1 from by omega)]
              abel
            · rw [if_neg h2, if_neg (show ¬(1 ≤ j ∧ j - 1 < m + 1) from by omega)]
              abel

theorem computeForces_positions (c : SimConsts) (s : SimState) :
    (computeForces c s).positions = s.positions := by
  unfold computeForces
  rw [foldl_applySegment_positions]; rfl

theorem computeForces_velocities (c : SimConsts) (s : SimState) :
    (computeForces c s).velocities = s.velocities := by
  unfold computeForces
  rw [foldl_applySegment_velocities]; rfl

theorem computeForces_invMass (c : SimConsts) (s : SimState) :
    (computeForces c s).invMass = s.invMass := by
  unfold computeForces
  rw [foldl_applySegment_invMass]; rfl

/-- Closed form of the whole force pass at a valid particle index j:
a gravity term guarded by inv_mass[j] > 0, plus the contribution of
segment j when it exists, minus the contribution of segment j - 1
when j is its right endpoint. -/
theorem computeForces_forces (c : SimConsts) (s : SimState) (j : ℕ)
    (hj : j < c.nParticles) :
    (computeForces c s).forces j =
      (if 0 < s.invMass j then c.particleMass • c.gravity else 0)
        + (if j + 1 < c.nParticles then segDelta c s j else 0)
        - (if 1 ≤ j then segDelta c s (j - 1) else 0) := by
  unfold computeForces
  rw [foldl_applySegment_forces]
  have hp : (addGravity c (clearForces c s)).positions = s.positions := rfl
  have hv : (addGravity c (clearForces c s)).velocities = s.velocities := rfl
  rw [segDelta_eq_of c s _ j hp hv, segDelta_eq_of c s _ (j - 1) hp hv]
  have hb : (addGravity c (clearForces c s)).forces j =
      (if 0 < s.invMass j then c.particleMass • c.gravity else 0) := by
    show (if j < c.nParticles ∧ 0 < s.invMass j
        then (if j < c.nParticles then 0 else s.forces j) + c.particleMass • c.gravity
        else (if j < c.nParticles then 0 else s.forces j)) = _
    rw [if_pos hj]
    by_cases hm : 0 < s.invMass j
    · rw [if_pos ⟨hj, hm⟩, if_pos hm, zero_add]
    · rw [if_neg (by tauto), if_neg hm]
  rw [hb]
  simp only [show (j < c.nParticles - 1) ↔ (j + 1 < c.nParticles) from by omega,
    show (1 ≤ j ∧ j - 1 < c.nParticles - 1) ↔ (1 ≤ j) from by omega]

theorem integrate_velocities_of_pos (c : SimConsts) (s : SimState) (i : ℕ)
    (hi : i < c.nParticles) (hm : 0 < s.invMass i) :
    (integrate c s).velocities i =
      s.velocities i + c.dt • (s.invMass i • s.forces i) := by
  show (if i < c.nParticles ∧ 0 < s.invMass i
      then s.velocities i + c.dt • (s.invMass i • s.forces i)
      else s.velocities i) = _
  rw [if_pos ⟨hi, hm⟩]

theorem integrate_positions_of_pos (c : SimConsts) (s : SimState) (i : ℕ)
    (hi : i < c.nParticles) (hm : 0 < s.invMass i) :
    (integrate c s).positions i =
      s.positions i + c.dt • (s.velocities i + c.dt • (s.invMass i • s.forces i)) := by
  show (if i < c.nParticles ∧ 0 < s.invMass i
      then s.positions i + c.dt • (s.velocities i + c.dt • (s.invMass i • s.forces i))
      else s.positions i) = _
  rw [if_pos ⟨hi, hm⟩]

theorem integrate_untouched (c : SimConsts) (s : SimState) (i : ℕ)
    (hm : s.invMass i = 0) :
    (integrate c s).velocities i = s.velocities i ∧
      (integrate c s).positions i = s.positions i := by
  have hcond : ¬(i < c.nParticles ∧ 0 < s.invMass i) := by
    rw [hm]; simp
  constructor
  · show (if i < c.nParticles ∧ 0 < s.invMass i
        then s.velocities i + c.dt • (s.invMass i • s.forces i)
        else s.velocities i) = _
    rw [if_neg hcond]
  · show (if i < c.nParticles ∧ 0 < s.invMass i
        then s.positions i + c.dt • (s.velocities i + c.dt • (s.invMass i • s.forces i))
        else s.positions i) = _
    rw [if_neg hcond]

/-- The pin predicate: particle 0 is fixed with the given position and
velocity. -/
def pinnedAt (s : SimState) (p v : ℝ × ℝ) : Prop :=
  s.invMass 0 = 0 ∧ s.positions 0 = p ∧ s.velocities 0 = v

theorem substep_pinnedAt (c : SimConsts) (s : SimState) (p v : ℝ × ℝ)
    (h : pinnedAt s p v) : pinnedAt (substep c s) p v := by
  obtain ⟨hm, hp, hv⟩ := h
  have hm2 : (computeForces c s).invMass 0 = 0 := by
    rw [computeForces_invMass]; exact hm
  have hu := integrate_untouched c (computeForces c s) 0 hm2
  refine ⟨?_, ?_, ?_⟩
  · show (integrate c (computeForces c s)).invMass 0 = 0
    show (computeForces c s).invMass 0 = 0
    exact hm2
  · show (integrate c (computeForces c s)).positions 0 = p
    rw [hu.2, computeForces_positions]; exact hp
  · show (integrate c (computeForces c s)).velocities 0 = v
    rw [hu.1, computeForces_velocities]; exact hv

theorem iterate_substep_pinnedAt (c : SimConsts) (s : SimState) (p v : ℝ × ℝ)
    (h : pinnedAt s p v) (k : ℕ) : pinnedAt ((substep c)^[k] s) p v := by
  induction k with
  | zero => exact h
  | succ k ih =>
      rw [Function.iterate_succ_apply']
      exact substep_pinnedAt c _ p v ih

theorem foldl_substep_pinnedAt (c : SimConsts) (p v : ℝ × ℝ) (l : List ℕ)
    (s : SimState) (h : pinnedAt s p v) :
    pinnedAt (l.foldl (fun t _ => substep c t) s) p v := by
  induction l generalizing s with
  | nil => exact h
  | cons a l ih =>
      rw [List.foldl_cons]
      exact ih _ (substep_pinnedAt c s p v h)

theorem frame_pinnedAt (c : SimConsts) (b : Bool) (s : SimState) (p v : ℝ × ℝ)
    (h : pinnedAt s p v) : pinnedAt (frame c b s) p v := by
  unfold frame
  rcases b with _ | _
  · exact foldl_substep_pinnedAt c p v _ s h
  · exact h

theorem foldl_frame_pinnedAt (c : SimConsts) (p v : ℝ × ℝ) (ps : List Bool)
    (s : SimState) (h : pinnedAt s p v) :
    pinnedAt (ps.foldl (fun t b => frame c b t) s) p v := by
  induction ps generalizing s with
  | nil => exact h
  | cons b ps ih =>
      rw [List.foldl_cons]
      exact ih _ (frame_pinnedAt c b s p v h)

theorem initialState_invMass_zero (c : SimConsts) :
    (initialState c).invMass 0 = 0 := by
  show (if 0 < c.nParticles then (if 0 = 0 then (0 : ℝ) else 1 / c.particleMass)
      else init0.invMass 0) = 0
  by_cases h : 0 < c.nParticles
  · rw [if_pos h, if_pos rfl]
  · rw [if_neg h]; rfl

theorem foldl_const_iterate {α : Type} (f : α → α) (m : ℕ) (s : α) :
    (List.range m).foldl (fun t _ => f t) s = f^[m] s := by
  induction m with
  | zero => rfl
  | succ m ih =>
      rw [List.range_succ, List.foldl_append, List.foldl_cons, List.foldl_nil,
        ih, Function.iterate_succ_apply']

/-! Concrete evaluations on the two-particle configurations. -/

theorem cexS_diff : cexS.positions 1 - cexS.positions 0 = ((2 : ℝ), (0 : ℝ)) := by
  show ((if (1 : ℕ) = 0 then ((0 : ℝ), (0 : ℝ)) else (2, 0))
      - (if (0 : ℕ) = 0 then ((0 : ℝ), (0 : ℝ)) else (2, 0))) = _
  norm_num [Prod.ext_iff]

theorem vnorm_two_zero : vnorm ((2 : ℝ), (0 : ℝ)) = 2 := by
  unfold vnorm vdot
  rw [show ((2 : ℝ), (0 : ℝ)).1 * ((2 : ℝ), (0 : ℝ)).1
        + ((2 : ℝ), (0 : ℝ)).2 * ((2 : ℝ), (0 : ℝ)).2 = 2 ^ 2 from by norm_num]
  exact Real.sqrt_sq (by norm_num)

theorem cexS_guard : vnorm (cexS.positions (0 + 1) - cexS.positions 0) > 1 / 1000000 := by
  norm_num [cexS_diff, vnorm_two_zero]

theorem cexS_spring : segSpringVec cexC cexS 0 = ((1 : ℝ), (0 : ℝ)) := by
  unfold segSpringVec
  norm_num [cexS_diff, vnorm_two_zero, cexC]

theorem cexS_damp : segDampVec cexC cexS 0 = 0 := by
  unfold segDampVec
  norm_num [cexC]

theorem cexS_delta : segDelta cexC cexS 0 = ((1 : ℝ), (0 : ℝ)) := by
  unfold segDelta
  rw [if_pos cexS_guard, cexS_spring, cexS_damp, add_zero]

theorem cexS_invMass_zero : cexS.invMass 0 = 0 := rfl

theorem cexS_invMass_one : cexS.invMass 1 = 1 := rfl

theorem coincS_guard :
    vnorm (coincS.positions (0 + 1) - coincS.positions 0) ≤ 1 / 1000000 := by
  have h : coincS.positions (0 + 1) - coincS.positions 0 = ((0 : ℝ), (0 : ℝ)) := by
    show (((0 : ℝ), (0 : ℝ)) - ((0 : ℝ), (0 : ℝ))) = _
    norm_num [Prod.ext_iff]
  rw [h]
  unfold vnorm vdot
  rw [show ((0 : ℝ), (0 : ℝ)).1 * ((0 : ℝ), (0 : ℝ)).1
        + ((0 : ℝ), (0 : ℝ)).2 * ((0 : ℝ), (0 : ℝ)).2 = 0 from by norm_num]
  rw [Real.sqrt_zero]
  norm_num

/-! The claims. -/

/-- C2: for every sequence of frames (paused or not) after
initialization, followed by any further number of substeps, particle
0's position and velocity are exactly their initialized values: the
pinned particle with inverse mass 0 is never modified by any force
pass or integration pass. -/
theorem pin_invariant (c : SimConsts) (ps : List Bool) (j : ℕ) :
    ((substep c)^[j] (ps.foldl (fun t b => frame c b t) (initialState c))).positions 0
        = (initialState c).positions 0 ∧
      ((substep c)^[j] (ps.foldl (fun t b => frame c b t) (initialState c))).velocities 0
        = (initialState c).velocities 0 := by
  have h0 : pinnedAt (initialState c) ((initialState c).positions 0)
      ((initialState c).velocities 0) :=
    ⟨initialState_invMass_zero c, rfl, rfl⟩
  have h1 := foldl_frame_pinnedAt c _ _ ps (initialState c) h0
  have h2 := iterate_substep_pinnedAt c _ _ _ h1 j
  exact ⟨h2.2.1, h2.2.2⟩

/-- C5: the integration pass updates every particle with positive
inverse mass by semi-implicit Euler, the position update reading the
freshly updated velocity, and leaves particles with zero inverse mass
completely untouched. -/
theorem integrate_semantics (c : SimConsts) (s : SimState) (i : ℕ) :
    (i < c.nParticles → 0 < s.invMass i →
      (integrate c s).velocities i = s.velocities i + c.dt • (s.invMass i • s.forces i) ∧
      (integrate c s).positions i = s.positions i + c.dt • (integrate c s).velocities i)
    ∧ (s.invMass i = 0 →
      (integrate c s).velocities i = s.velocities i ∧
      (integrate c s).positions i = s.positions i) := by
  constructor
  · intro hi hm
    have hv := integrate_velocities_of_pos c s i hi hm
    have hp := integrate_positions_of_pos c s i hi hm
    exact ⟨hv, by rw [hp, hv]⟩
  · intro hm
    exact integrate_untouched c s i hm

/-- C6: per frame of the simulation loop, a paused frame changes
nothing, and an unpaused frame runs the force-then-integrate substep
exactly 10 times, the substep being the force pass followed by the
integration pass. -/
theorem frame_semantics (c : SimConsts) (s : SimState) :
    frame c true s = s ∧
      frame c false s = (substep c)^[10] s ∧
      substep c s = integrate c (computeForces c s) := by
  refine ⟨rfl, ?_, rfl⟩
  show (List.range 10).foldl (fun t _ => substep c t) s = (substep c)^[10] s
  exact foldl_const_iterate (substep c) 10 s

/-- C7: initialization places particle i at
start_pos + (i * rest_length, 0), with zero velocity, inverse mass 0
for particle 0 and 1 / particle_mass for every other particle. -/
theorem initialize_semantics (c : SimConsts) (i : ℕ) (hi : i < c.nParticles) :
    (initialState c).positions i = startPos + ((i : ℝ) * c.restLength, 0) ∧
      (initialState c).velocities i = 0 ∧
      (initialState c).invMass i = (if i = 0 then 0 else 1 / c.particleMass) := by
  refine ⟨?_, ?_, ?_⟩
  · show (if i < c.nParticles then startPos + ((i : ℝ) * c.restLength, 0)
        else init0.positions i) = _
    rw [if_pos hi]
  · show (if i < c.nParticles then 0 else init0.velocities i) = _
    rw [if_pos hi]
  · show (if i < c.nParticles then (if i = 0 then (0 : ℝ) else 1 / c.particleMass)
        else init0.invMass i) = _
    rw [if_pos hi]

/-- Witness for C7 at particle 3 of the source configuration. -/
theorem initialize_semantics_witness :
    3 < ropeConsts.nParticles ∧
      (initialState ropeConsts).positions 3 =
        startPos + ((3 : ℝ) * ropeConsts.restLength, 0) ∧
      (initialState ropeConsts).velocities 3 = 0 ∧
      (initialState ropeConsts).invMass 3 =
        (if 3 = 0 then 0 else 1 / ropeConsts.particleMass) := by
  have h3 : 3 < ropeConsts.nParticles := by norm_num [ropeConsts]
  exact ⟨h3, initialize_semantics ropeConsts 3 h3⟩

/-- C9: the force pass writes only the force buffer, leaving every
position, velocity and inverse mass unchanged; the integration pass
leaves the force buffer and the inverse masses unchanged and does not
touch position or velocity of a particle with zero inverse mass. -/
theorem frame_effects (c : SimConsts) (s : SimState) :
    (computeForces c s).positions = s.positions ∧
      (computeForces c s).velocities = s.velocities ∧
      (computeForces c s).invMass = s.invMass ∧
      (integrate c s).forces = s.forces ∧
      (integrate c s).invMass = s.invMass ∧
      ∀ i, s.invMass i = 0 →
        (integrate c s).positions i = s.positions i ∧
        (integrate c s).velocities i = s.velocities i := by
  refine ⟨computeForces_positions c s, computeForces_velocities c s,
    computeForces_invMass c s, rfl, rfl, fun i hm => ?_⟩
  have h := integrate_untouched c s i hm
  exact ⟨h.2, h.1⟩

/-- Witness for C9: the integration pass leaves the pinned particle of
the concrete two-particle configuration untouched. -/
theorem frame_effects_witness :
    cexS.invMass 0 = 0 ∧
      (integrate cexC cexS).positions 0 = cexS.positions 0 ∧
      (integrate cexC cexS).velocities 0 = cexS.velocities 0 :=
  ⟨rfl, ((frame_effects cexC cexS).2.2.2.2.2 0 rfl).1,
    ((frame_effects cexC cexS).2.2.2.2.2 0 rfl).2⟩

/-- Witness for C5 on the concrete configuration: particle 1 is
integrated, particle 0 untouched. -/
theorem integrate_semantics_witness :
    (1 < cexC.nParticles ∧ 0 < cexS.invMass 1 ∧
      (integrate cexC cexS).velocities 1
        = cexS.velocities 1 + cexC.dt • (cexS.invMass 1 • cexS.forces 1) ∧
      (integrate cexC cexS).positions 1
        = cexS.positions 1 + cexC.dt • (integrate cexC cexS).velocities 1) ∧
    (cexS.invMass 0 = 0 ∧
      (integrate cexC cexS).velocities 0 = cexS.velocities 0 ∧
      (integrate cexC cexS).positions 0 = cexS.positions 0) := by
  have h1 : (1 : ℕ) < cexC.nParticles := by norm_num [cexC]
  have h2 : (0 : ℝ) < cexS.invMass 1 := by rw [cexS_invMass_one]; norm_num
  exact ⟨⟨h1, h2, (integrate_semantics cexC cexS 1).1 h1 h2⟩,
    rfl, (integrate_semantics cexC cexS 0).2 rfl⟩

theorem cex_forces_zero :
    (computeForces cexC cexS).forces 0 = ((1 : ℝ), (0 : ℝ)) := by
  have h0 := computeForces_forces cexC cexS 0 (by norm_num [cexC])
  rw [if_neg (show ¬(0 : ℝ) < cexS.invMass 0 from by
      rw [cexS_invMass_zero]; norm_num),
    if_pos (show 0 + 1 < cexC.nParticles from by norm_num [cexC]),
    if_neg (show ¬1 ≤ 0 from by norm_num)] at h0
  rw [h0, cexS_delta, zero_add, sub_zero]

theorem cex_forces_one :
    (computeForces cexC cexS).forces 1 = ((-1 : ℝ), (0 : ℝ)) := by
  have h1 := computeForces_forces cexC cexS 1 (by norm_num [cexC])
  rw [if_pos (show (0 : ℝ) < cexS.invMass 1 from by
      rw [cexS_invMass_one]; norm_num),
    if_neg (show ¬1 + 1 < cexC.nParticles from by norm_num [cexC]),
    if_pos (show 1 ≤ 1 from le_refl 1)] at h1
  rw [h1, show (1 : ℕ) - 1 = 0 from rfl, cexS_delta]
  norm_num [cexC, Prod.ext_iff, Prod.smul_mk, smul_eq_mul,
    Prod.fst_sub, Prod.snd_sub, Prod.fst_zero, Prod.snd_zero,
    Prod.fst_add, Prod.snd_add]

/-- C1 is refuted by the source: in the force pass the spring and
damping vectors are added to particle i and subtracted from particle
i+1, not the other way round.  On the stretched two-particle
configuration the claimed assignment predicts force (1, 0) on particle
1 and (-1, 0) on particle 0; the pass produces the opposite. -/
theorem segment_force_direction_counterexample :
    (computeForces cexC cexS).forces 0 = ((1 : ℝ), (0 : ℝ)) ∧
      (computeForces cexC cexS).forces 1 = ((-1 : ℝ), (0 : ℝ)) ∧
      ¬((computeForces cexC cexS).forces 1 = ((1 : ℝ), (0 : ℝ))
        ∧ (computeForces cexC cexS).forces 0 = ((-1 : ℝ), (0 : ℝ))) := by
  refine ⟨cex_forces_zero, cex_forces_one, fun h => ?_⟩
  have h1 := h.1
  rw [cex_forces_one] at h1
  have h2 : (-1 : ℝ) = 1 := congrArg Prod.fst h1
  norm_num at h2

/-- C1 (amended): in each force pass, for every segment (i, i+1) whose
length exceeds the degenerate threshold, the spring force vector and
the damping force vector are each added to particle i's force
accumulator and subtracted from particle i+1's, the accumulator of
every other particle being untouched by that segment's step. -/
theorem segment_force_application (c : SimConsts) (st : SimState) (i : ℕ)
    (hL : vnorm (st.positions (i + 1) - st.positions i) > 1 / 1000000) :
    (applySegment c st i).forces i
        = st.forces i + segSpringVec c st i + segDampVec c st i ∧
      (applySegment c st i).forces (i + 1)
        = st.forces (i + 1) - segSpringVec c st i - segDampVec c st i ∧
      ∀ k, k ≠ i → k ≠ i + 1 → (applySegment c st i).forces k = st.forces k := by
  unfold applySegment
  rw [if_pos hL]
  dsimp only
  refine ⟨?_, ?_, ?_⟩
  · rw [if_pos rfl]
  · rw [if_neg (show ¬i + 1 = i from by omega), if_pos rfl]
  · intro k hk hk1
    rw [if_neg hk, if_neg hk1]

/-- Witness for the amended C1 on the stretched configuration. -/
theorem segment_force_application_witness :
    vnorm (cexS.positions (0 + 1) - cexS.positions 0) > 1 / 1000000 ∧
      (applySegment cexC cexS 0).forces 0
        = cexS.forces 0 + segSpringVec cexC cexS 0 + segDampVec cexC cexS 0 ∧
      (applySegment cexC cexS 0).forces (0 + 1)
        = cexS.forces (0 + 1) - segSpringVec cexC cexS 0 - segDampVec cexC cexS 0 :=
  ⟨cexS_guard, (segment_force_application cexC cexS 0 cexS_guard).1,
    (segment_force_application cexC cexS 0 cexS_guard).2.1⟩

/-- C3: for every segment whose length exceeds the threshold, the
combined spring-plus-damping contribution written to particle i's
accumulator is the exact negation of the contribution written to
particle i+1's, gravity playing no part in the segment step. -/
theorem newton_third_law (c : SimConsts) (st : SimState) (i : ℕ)
    (hL : vnorm (st.positions (i + 1) - st.positions i) > 1 / 1000000) :
    (applySegment c st i).forces i - st.forces i
        = segSpringVec c st i + segDampVec c st i ∧
      (applySegment c st i).forces (i + 1) - st.forces (i + 1)
        = -(segSpringVec c st i + segDampVec c st i) := by
  have hd : segDelta c st i = segSpringVec c st i + segDampVec c st i := by
    unfold segDelta
    rw [if_pos hL]
  constructor
  · rw [applySegment_forces c st i i, hd, if_pos rfl,
      if_neg (show ¬i = i + 1 from by omega)]
    abel
  · rw [applySegment_forces c st i (i + 1), hd,
      if_neg (show ¬i + 1 = i from by omega), if_pos rfl]
    abel

/-- Witness for C3 on the stretched configuration. -/
theorem newton_third_law_witness :
    vnorm (cexS.positions (0 + 1) - cexS.positions 0) > 1 / 1000000 ∧
      (applySegment cexC cexS 0).forces 0 - cexS.forces 0
        = segSpringVec cexC cexS 0 + segDampVec cexC cexS 0 ∧
      (applySegment cexC cexS 0).forces (0 + 1) - cexS.forces (0 + 1)
        = -(segSpringVec cexC cexS 0 + segDampVec cexC cexS 0) :=
  ⟨cexS_guard, (newton_third_law cexC cexS 0 cexS_guard).1,
    (newton_third_law cexC cexS 0 cexS_guard).2⟩

/-- C4: a segment whose current length is at most 1e-6, in particular
one with coincident endpoints, is skipped entirely by the force pass:
the guarded branch is not taken, no quotient by the length is formed,
and the whole state, in particular every force accumulator, is left
exactly as it was. -/
theorem degenerate_guard (c : SimConsts) (st : SimState) (i : ℕ)
    (hL : vnorm (st.positions (i + 1) - st.positions i) ≤ 1 / 1000000) :
    applySegment c st i = st := by
  unfold applySegment
  rw [if_neg (not_lt.mpr hL)]

/-- Witness for C4 on the coincident configuration (segment length
exactly 0). -/
theorem degenerate_guard_witness :
    vnorm (coincS.positions (0 + 1) - coincS.positions 0) ≤ 1 / 1000000 ∧
      applySegment cexC coincS 0 = coincS :=
  ⟨coincS_guard, degenerate_guard cexC coincS 0 coincS_guard⟩

/-- C10: after a force pass with particle 0 pinned and at least two
particles, particle 0's accumulator holds exactly the spring plus
damping reaction of segment (0, 1) — no gravity term — whenever that
segment's length exceeds the threshold; and the integration pass never
consumes it: particle 0's position and velocity are unchanged. -/
theorem pinned_reaction_force (c : SimConsts) (s : SimState)
    (hn : 2 ≤ c.nParticles) (hm : s.invMass 0 = 0)
    (hL : vnorm (s.positions (0 + 1) - s.positions 0) > 1 / 1000000) :
    (computeForces c s).forces 0 = segSpringVec c s 0 + segDampVec c s 0 ∧
      (integrate c (computeForces c s)).positions 0 = s.positions 0 ∧
      (integrate c (computeForces c s)).velocities 0 = s.velocities 0 := by
  have h0 := computeForces_forces c s 0 (by omega)
  rw [if_neg (show ¬(0 : ℝ) < s.invMass 0 from by rw [hm]; norm_num),
    if_pos (show 0 + 1 < c.nParticles from by omega),
    if_neg (show ¬1 ≤ 0 from by norm_num)] at h0
  have hd : segDelta c s 0 = segSpringVec c s 0 + segDampVec c s 0 := by
    unfold segDelta
    rw [if_pos hL]
  have hm2 : (computeForces c s).invMass 0 = 0 := by
    rw [computeForces_invMass]; exact hm
  have hu := integrate_untouched c (computeForces c s) 0 hm2
  refine ⟨?_, ?_, ?_⟩
  · rw [h0, hd, zero_add, sub_zero]
  · rw [hu.2, computeForces_positions]
  · rw [hu.1, computeForces_velocities]

/-! The rest-length equilibrium scenario (C8): two particles, zero
gravity, particle 1 exactly rest_length away from the pinned particle,
everything at rest. -/

theorem computeForces_forces_high (c : SimConsts) (s : SimState) (j : ℕ)
    (hj : c.nParticles ≤ j) : (computeForces c s).forces j = s.forces j := by
  unfold computeForces
  rw [foldl_applySegment_forces,
    if_neg (show ¬j < c.nParticles - 1 from by omega),
    if_neg (show ¬(1 ≤ j ∧ j - 1 < c.nParticles - 1) from by omega)]
  have hb : (addGravity c (clearForces c s)).forces j = s.forces j := by
    show (if j < c.nParticles ∧ 0 < (clearForces c s).invMass j
        then (if j < c.nParticles then 0 else s.forces j) + c.particleMass • c.gravity
        else (if j < c.nParticles then 0 else s.forces j)) = _
    rw [if_neg (fun hc => absurd hc.1 (by omega)), if_neg (by omega)]
  rw [hb]
  simp

theorem integrate_of_static (c : SimConsts) (s : SimState)
    (hv : ∀ i, s.velocities i = 0) (hf : ∀ i, s.forces i = 0) :
    integrate c s = s := by
  refine SimState.ext ?_ ?_ rfl rfl
  · funext i
    show (if i < c.nParticles ∧ 0 < s.invMass i
        then s.positions i + c.dt • (s.velocities i + c.dt • (s.invMass i • s.forces i))
        else s.positions i) = s.positions i
    simp only [hv i, hf i, smul_zero, add_zero, zero_add, ite_self]
  · funext i
    show (if i < c.nParticles ∧ 0 < s.invMass i
        then s.velocities i + c.dt • (s.invMass i • s.forces i)
        else s.velocities i) = s.velocities i
    simp only [hf i, smul_zero, add_zero, ite_self]

theorem eqInit_velocities (i : ℕ) : (initialState eqConsts).velocities i = 0 := by
  show (if i < eqConsts.nParticles then 0 else init0.velocities i) = 0
  split <;> rfl

theorem eqInit_forces (i : ℕ) : (initialState eqConsts).forces i = 0 := rfl

theorem eqInit_diff :
    (initialState eqConsts).positions 1 - (initialState eqConsts).positions 0
      = ((1 / 10 : ℝ), (0 : ℝ)) := by
  show ((if (1 : ℕ) < eqConsts.nParticles
        then startPos + (((1 : ℕ) : ℝ) * eqConsts.restLength, 0)
        else init0.positions 1)
      - (if (0 : ℕ) < eqConsts.nParticles
        then startPos + (((0 : ℕ) : ℝ) * eqConsts.restLength, 0)
        else init0.positions 0)) = _
  norm_num [eqConsts, startPos, Prod.ext_iff, Prod.fst_sub, Prod.snd_sub,
    Prod.fst_add, Prod.snd_add]

theorem vnorm_tenth_zero : vnorm ((1 / 10 : ℝ), (0 : ℝ)) = 1 / 10 := by
  unfold vnorm vdot
  rw [show ((1 / 10 : ℝ), (0 : ℝ)).1 * ((1 / 10 : ℝ), (0 : ℝ)).1
        + ((1 / 10 : ℝ), (0 : ℝ)).2 * ((1 / 10 : ℝ), (0 : ℝ)).2
      = (1 / 10 : ℝ) ^ 2 from by norm_num]
  exact Real.sqrt_sq (by norm_num)

theorem eqInit_guard :
    vnorm ((initialState eqConsts).positions (0 + 1)
      - (initialState eqConsts).positions 0) > 1 / 1000000 := by
  norm_num [eqInit_diff, vnorm_tenth_zero]

theorem eqInit_spring : segSpringVec eqConsts (initialState eqConsts) 0 = 0 := by
  unfold segSpringVec
  rw [show (0 : ℕ) + 1 = 1 from rfl, eqInit_diff, vnorm_tenth_zero,
    show eqConsts.restLength = 1 / 10 from rfl]
  norm_num

theorem eqInit_damp : segDampVec eqConsts (initialState eqConsts) 0 = 0 := by
  unfold segDampVec
  norm_num [eqInit_velocities, vdot, Prod.fst_zero, Prod.snd_zero]

theorem eqInit_delta : segDelta eqConsts (initialState eqConsts) 0 = 0 := by
  unfold segDelta
  rw [if_pos eqInit_guard, eqInit_spring, eqInit_damp, add_zero]

theorem eqInit_invMass_one : (initialState eqConsts).invMass 1 = 1 := by
  show (if (1 : ℕ) < eqConsts.nParticles
      then (if (1 : ℕ) = 0 then (0 : ℝ) else 1 / eqConsts.particleMass)
      else init0.invMass 1) = 1
  norm_num [eqConsts]

theorem eqInit_computeForces_fix :
    computeForces eqConsts (initialState eqConsts) = initialState eqConsts := by
  refine SimState.ext (computeForces_positions _ _) (computeForces_velocities _ _)
    ?_ (computeForces_invMass _ _)
  funext j
  by_cases hj : j < 2
  · have h := computeForces_forces eqConsts (initialState eqConsts) j hj
    interval_cases j
    · rw [h, if_neg (show ¬(0 : ℝ) < (initialState eqConsts).invMass 0 from by
          rw [initialState_invMass_zero]; norm_num),
        if_pos (show 0 + 1 < eqConsts.nParticles from by norm_num [eqConsts]),
        if_neg (show ¬1 ≤ 0 from by norm_num), eqInit_delta, eqInit_forces 0]
      simp
    · rw [h, if_pos (show (0 : ℝ) < (initialState eqConsts).invMass 1 from by
          rw [eqInit_invMass_one]; norm_num),
        if_neg (show ¬1 + 1 < eqConsts.nParticles from by norm_num [eqConsts]),
        if_pos (le_refl 1), show (1 : ℕ) - 1 = 0 from rfl, eqInit_delta,
        eqInit_forces 1]
      norm_num [eqConsts, Prod.mk_zero_zero]
  · rw [computeForces_forces_high eqConsts (initialState eqConsts) j
      (show eqConsts.nParticles ≤ j from by
        have h2 : eqConsts.nParticles = 2 := rfl
        omega)]

theorem eqInit_substep_fix :
    substep eqConsts (initialState eqConsts) = initialState eqConsts := by
  unfold substep
  rw [eqInit_computeForces_fix]
  exact integrate_of_static eqConsts _ eqInit_velocities eqInit_forces

/-- C8: the two-particle zero-gravity configuration with particle 1
exactly rest_length from the pinned particle and everything at rest is
a fixed point of the substep; in particular particle 1's position does
not drift at all (drift 0, within any tolerance) over 1000 substeps. -/
theorem rest_length_equilibrium :
    substep eqConsts (initialState eqConsts) = initialState eqConsts ∧
      ((substep eqConsts)^[1000] (initialState eqConsts)).positions 1
        = (initialState eqConsts).positions 1 := by
  refine ⟨eqInit_substep_fix, ?_⟩
  rw [Function.iterate_fixed eqInit_substep_fix]

/-- Witness for C10 on the stretched configuration. -/
theorem pinned_reaction_force_witness :
    2 ≤ cexC.nParticles ∧ cexS.invMass 0 = 0 ∧
      vnorm (cexS.positions (0 + 1) - cexS.positions 0) > 1 / 1000000 ∧
      (computeForces cexC cexS).forces 0
        = segSpringVec cexC cexS 0 + segDampVec cexC cexS 0 ∧
      (integrate cexC (computeForces cexC cexS)).positions 0 = cexS.positions 0 ∧
      (integrate cexC (computeForces cexC cexS)).velocities 0 = cexS.velocities 0 := by
  have h := pinned_reaction_force cexC cexS (by norm_num [cexC]) rfl cexS_guard
  exact ⟨by norm_num [cexC], rfl, cexS_guard, h⟩

end
